import Mathlib

/-!
Verification of the Crabtree backend access-control layer
(`src/src-tauri/src/lib.rs`) against its specification.

The Rust code is shallowly embedded: every filesystem syscall the code
performs (`fs::canonicalize`, `fs::metadata`, `fs::read`, `fs::read_dir`,
`Path::parent`, `Path::exists`, `Path::is_dir`, `fs::write`) becomes a
lookup in an explicit environment `FS`; the allowlist (`APPROVED_PATHS`)
becomes an explicit `List CPath` argument threaded through the functions,
and fallible operations return `Except Err α`, with one `Err` constructor
per distinct error message the Rust code produces.

Canonical paths are modelled as lists of path components (`CPath`),
because `Path::starts_with` in Rust compares whole components, not raw
string prefixes.  Text is modelled as a list of Unicode scalar values and
file contents as lists of bytes (`Nat`, values < 256 in intended use).
-/

/-- A canonical (symlink-resolved, absolute) path, as its list of path
components.  `Path::starts_with` on `PathBuf` is component-wise prefix,
which becomes list prefix here. -/
abbrev CPath := List String

/-- The file type reported by `fs::metadata`. -/
inductive FType where
  | file
  | dir
  | other
deriving DecidableEq, Repr

/-- Error taxonomy: one constructor per distinct error message produced in
`lib.rs` (the spec's names are given in the comments).
  * `pathResolution`: "Cannot resolve path: …" (PathResolutionError)
  * `accessDenied p`: "Access denied: p not in approved paths…" (AccessDenied)
  * `metadataError`: "Cannot access file metadata: …"
  * `notAFile`: "Path is not a regular file" (NotAFile)
  * `noParent`: "Invalid file path (no parent directory)"
  * `badPathEncoding`: "Invalid path encoding"
  * `parentMissing`: "Parent directory does not exist" (InvalidParent)
  * `parentNotDir`: "Parent path is not a directory" (InvalidParent)
  * `dirMetadataError`: "Cannot access directory metadata: …"
  * `notADirectory`: "Path is not a directory" (NotADirectory)
  * `readFailed`: "Failed to read file: …" (ReadError)
  * `fileMetadataFailed`: "Failed to get metadata: …"
  * `saveFailed`: "Failed to save file: …" (ReadError on write)
Lock poisoning is not modelled: the embedding is sequential, so the
`Mutex` can never be poisoned. -/
inductive Err where
  | pathResolution
  | accessDenied (p : String)
  | metadataError
  | notAFile
  | noParent
  | badPathEncoding
  | parentMissing
  | parentNotDir
  | dirMetadataError
  | notADirectory
  | readFailed
  | fileMetadataFailed
  | saveFailed
deriving DecidableEq, Repr

/-- One entry yielded by `fs::read_dir`: its `file_name()`, its full
`path()` (a raw path string), and `file_type().is_dir()` after the code's
`unwrap_or(false)`. -/
structure DirEnt where
  name : String
  entPath : String
  isDirE : Bool
deriving DecidableEq, Repr

/-- The filesystem environment.  Each field answers one kind of syscall
the Rust code makes; the code cannot observe anything else.  The fields
are independent maps because the underlying filesystem answers each call
at a different instant (the spec itself notes that the target may change
between calls — time-of-check/time-of-use). -/
structure FS where
  /-- `fs::canonicalize` on a raw path string: `none` = resolution error. -/
  canon : String → Option CPath
  /-- `fs::metadata` on a canonical path: file type and byte length;
  `none` = metadata error. -/
  meta : CPath → Option (FType × Nat)
  /-- `fs::metadata` on a raw path string (used at `read_file` line 164). -/
  metaRaw : String → Option (FType × Nat)
  /-- `fs::read` on a raw path string: `none` = read error. -/
  readBytes : String → Option (List Nat)
  /-- `fs::read_dir` on a raw path string: `none` = unreadable directory. -/
  readDir : String → Option (List DirEnt)
  /-- `Path::parent` of a raw path string (pure path manipulation;
  `none` for a path with no parent). -/
  parentOf : String → Option String
  /-- `Path::exists` on a raw path string. -/
  pExists : String → Bool
  /-- `Path::is_dir` on a raw path string. -/
  pIsDir : String → Bool
  /-- Whether `fs::write` at a raw path string succeeds. -/
  writeOk : String → Bool

/-- `approve_path` (lib.rs 17–27): canonicalize, then push onto the
allowlist.  Returns the new allowlist (the mutation of `APPROVED_PATHS`
made explicit). -/
def approvePath (allowed : List CPath) (st : FS) (path : String) :
    Except Err (List CPath) :=
  match st.canon path with
  | none => .error .pathResolution
  | some canonical => .ok (allowed ++ [canonical])

/-- `is_path_allowed` (lib.rs 30–48): canonicalize the query, then scan
the allowlist; `canonical.starts_with(approved) || &canonical == approved`
is component-wise prefix (equality is a special case of prefix). -/
def isPathAllowed (allowed : List CPath) (st : FS) (path : String) :
    Except Err CPath :=
  match st.canon path with
  | none => .error .pathResolution
  | some canonical =>
      if allowed.any (fun approved => approved.isPrefixOf canonical) then
        .ok canonical
      else
        .error (.accessDenied path)

/-- `clear_approved_paths` (lib.rs 51–57): empties the allowlist. -/
def clearApprovedPaths (_allowed : List CPath) : List CPath := []

/-- `validate_file_path` (lib.rs 60–73): allowlist check, then the
canonical target must have readable metadata and be a regular file.
Note the Rust function returns `Result<(), String>`: the canonical path
computed inside is discarded. -/
def validateFilePath (allowed : List CPath) (st : FS) (path : String) :
    Except Err Unit :=
  match isPathAllowed allowed st path with
  | .error e => .error e
  | .ok canonical =>
      match st.meta canonical with
      | none => .error .metadataError
      | some (ft, _) =>
          if ft = .file then .ok () else .error .notAFile

/-- `validate_write_path` (lib.rs 75–93): the *parent* of the raw path
must pass the allowlist, exist, and be a directory.  The Rust
`parent.to_str()` UTF-8 check cannot fail in this model (paths are
Lean strings), so `badPathEncoding` is unreachable here. -/
def validateWritePath (allowed : List CPath) (st : FS) (path : String) :
    Except Err Unit :=
  match st.parentOf path with
  | none => .error .noParent
  | some parent =>
      match isPathAllowed allowed st parent with
      | .error e => .error e
      | .ok _ =>
          if !st.pExists parent then .error .parentMissing
          else if !st.pIsDir parent then .error .parentNotDir
          else .ok ()

/-- `validate_read_dir` (lib.rs 95–108): allowlist check, then the
canonical target must have readable metadata and be a directory. -/
def validateReadDir (allowed : List CPath) (st : FS) (path : String) :
    Except Err Unit :=
  match isPathAllowed allowed st path with
  | .error e => .error e
  | .ok canonical =>
      match st.meta canonical with
      | none => .error .dirMetadataError
      | some (ft, _) =>
          if ft = .dir then .ok () else .error .notADirectory

/-- The encodings the backend can report.  `detect_encoding` (lib.rs
128–145) itself can only return UTF-8 / UTF-16LE / UTF-16BE / the result
of statistical detection; the statistical detector is external (crate
`chardetng`, excluded from the spec's scope), modelled below as choosing
between UTF-8 and windows-1252. -/
inductive Enc where
  | utf8
  | utf16le
  | utf16be
  | windows1252
deriving DecidableEq, Repr

/-- `Encoding::name()` of the modelled encodings. -/
def Enc.name : Enc → String
  | .utf8 => "UTF-8"
  | .utf16le => "UTF-16LE"
  | .utf16be => "UTF-16BE"
  | .windows1252 => "windows-1252"

/-- UTF-8 encoding of one Unicode scalar value (the byte sequence
`String::as_bytes` produces for that character). -/
def utf8EncodeChar (c : Nat) : List Nat :=
  if c < 0x80 then [c]
  else if c < 0x800 then [0xC0 + c / 0x40, 0x80 + c % 0x40]
  else if c < 0x10000 then
    [0xE0 + c / 0x1000, 0x80 + (c / 0x40) % 0x40, 0x80 + c % 0x40]
  else
    [0xF0 + c / 0x40000, 0x80 + (c / 0x1000) % 0x40,
     0x80 + (c / 0x40) % 0x40, 0x80 + c % 0x40]

/-- UTF-8 encoding of a text (list of Unicode scalar values). -/
def utf8Encode (t : List Nat) : List Nat := t.flatMap utf8EncodeChar

/-- UTF-8 decoding, fuel-indexed (the fuel argument only bounds the
recursion; any fuel at least the byte count gives the decoder's value):
reassembles the payload bits of 1–4 byte sequences.  Lenient on
malformed input (truncated tails are dropped); on output of
`utf8Encode` it is exact, which is all the theorems use. -/
def utf8DecodeAux : Nat → List Nat → List Nat
  | 0, _ => []
  | _ + 1, [] => []
  | fuel + 1, b :: rest =>
    if b < 0x80 then b :: utf8DecodeAux fuel rest
    else if b < 0xE0 then
      match rest with
      | b1 :: rest1 =>
          ((b - 0xC0) * 0x40 + (b1 - 0x80)) :: utf8DecodeAux fuel rest1
      | [] => []
    else if b < 0xF0 then
      match rest with
      | b1 :: b2 :: rest2 =>
          ((b - 0xE0) * 0x1000 + (b1 - 0x80) * 0x40 + (b2 - 0x80)) ::
            utf8DecodeAux fuel rest2
      | _ => []
    else
      match rest with
      | b1 :: b2 :: b3 :: rest3 =>
          ((b - 0xF0) * 0x40000 + (b1 - 0x80) * 0x1000 +
             (b2 - 0x80) * 0x40 + (b3 - 0x80)) :: utf8DecodeAux fuel rest3
      | _ => []

/-- UTF-8 decoding of a byte stream. -/
def utf8Decode (bytes : List Nat) : List Nat :=
  utf8DecodeAux bytes.length bytes

/-- Whether a byte stream begins with the UTF-8 byte-order mark
EF BB BF (the test at lib.rs 130, also performed by the external
decoder before stripping). -/
def hasUtf8Bom (bytes : List Nat) : Bool :=
  decide (3 ≤ bytes.length ∧ bytes.getD 0 0 = 0xEF ∧
          bytes.getD 1 0 = 0xBB ∧ bytes.getD 2 0 = 0xBF)

/-- Modelled from the spec: simple byte-pair reassembly for UTF-16LE
(the real decoder lives in the external `encoding_rs` crate, excluded
from the spec's scope; no theorem exercises this branch). -/
def utf16leDecode : List Nat → List Nat
  | b0 :: b1 :: rest => (b0 + 0x100 * b1) :: utf16leDecode rest
  | _ => []

/-- Modelled from the spec: simple byte-pair reassembly for UTF-16BE
(external decoder, excluded from the spec's scope; no theorem exercises
this branch). -/
def utf16beDecode : List Nat → List Nat
  | b0 :: b1 :: rest => (0x100 * b0 + b1) :: utf16beDecode rest
  | _ => []

/-- A byte stream is valid UTF-8 for this model when decoding and
re-encoding reproduces it exactly. -/
def utf8Valid (bytes : List Nat) : Bool :=
  utf8Encode (utf8Decode bytes) == bytes

/-- Modelled from the spec: "statistical detection over the byte stream"
(the external `chardetng` detector, an excluded collaborator treated as a
pure function).  Modelled as: a stream that is valid UTF-8 is guessed as
UTF-8, anything else as the windows-1252 fallback. -/
def statGuess (bytes : List Nat) : Enc :=
  if utf8Valid bytes then .utf8 else .windows1252

/-- `detect_encoding` (lib.rs 128–145): BOM sniffing for UTF-8 /
UTF-16LE / UTF-16BE first, then statistical detection. -/
def detectEncoding (bytes : List Nat) : Enc :=
  if hasUtf8Bom bytes then .utf8
  else if 2 ≤ bytes.length ∧ bytes.getD 0 0 = 0xFF ∧ bytes.getD 1 0 = 0xFE
    then .utf16le
  else if 2 ≤ bytes.length ∧ bytes.getD 0 0 = 0xFE ∧ bytes.getD 1 0 = 0xFF
    then .utf16be
  else statGuess bytes

/-- Modelled from the spec: the external decode step
(`encoding.decode(&bytes)` of `encoding_rs`), "treated as a pure
function: bytes → (text, encoding-name)".  For UTF-8 it strips a
leading byte-order mark and decodes; windows-1252 is a byte-to-scalar
table, modelled as the identity on bytes (adequate here: no theorem
inspects its output). -/
def rsDecode (e : Enc) (bytes : List Nat) : List Nat :=
  match e with
  | .utf8 => if hasUtf8Bom bytes then utf8Decode (bytes.drop 3)
             else utf8Decode bytes
  | .utf16le => utf16leDecode bytes
  | .utf16be => utf16beDecode bytes
  | .windows1252 => bytes

/-- The full byte-to-text pipeline of `read_file` lines 166–167:
detect the encoding, then decode. -/
def decodeBytes (bytes : List Nat) : List Nat :=
  rsDecode (detectEncoding bytes) bytes

/-- `content.contains("\r\n")`: whether the scalar 13 is immediately
followed by 10 somewhere in the text. -/
def containsCRLF : List Nat → Bool
  | 13 :: 10 :: _ => true
  | _ :: rest => containsCRLF rest
  | [] => false

/-- `detect_line_ending` (lib.rs 147–155): CRLF if "\r\n" occurs, else CR
if a bare carriage return occurs, else LF. -/
def detectLineEnding (content : List Nat) : String :=
  if containsCRLF content then "CRLF"
  else if content.contains 13 then "CR"
  else "LF"

/-- Split a character list at '/' boundaries (plain structural recursion
over the characters, so that concrete path strings evaluate). -/
def splitSlashAux : List Char → List Char → List String
  | [], acc => [String.mk acc.reverse]
  | ch :: rest, acc =>
      if ch = '/' then String.mk acc.reverse :: splitSlashAux rest []
      else splitSlashAux rest (ch :: acc)

/-- Modelled from the spec: the "resolved display name"
(`Path::file_name` of the raw path string with `unwrap_or_default`,
a pure std path manipulation): the last nonempty slash-separated
component, or "" when there is none. -/
def pathFileName (p : String) : String :=
  (((splitSlashAux p.data []).filter (fun s => s ≠ "")).getLast?).getD ""

/-- The `FileContent` struct (lib.rs 118–126), with text as a list of
Unicode scalar values. -/
structure FileContent where
  content : List Nat
  encoding : String
  path : String
  file_name : String
  size : Nat
  line_ending : String
deriving DecidableEq, Repr

/-- `read_file` (lib.rs 157–184): validate, then read the bytes and the
metadata **at the raw path string** (`Path::new(&path)`), decode, and
assemble the `FileContent`. -/
def readFile (allowed : List CPath) (st : FS) (path : String) :
    Except Err FileContent :=
  match validateFilePath allowed st path with
  | .error e => .error e
  | .ok _ =>
      match st.readBytes path with
      | none => .error .readFailed
      | some bytes =>
          match st.metaRaw path with
          | none => .error .fileMetadataFailed
          | some (_, size) =>
              let encoding := detectEncoding bytes
              let content := rsDecode encoding bytes
              .ok { content := content,
                    encoding := encoding.name,
                    path := path,
                    file_name := pathFileName path,
                    size := size,
                    line_ending := detectLineEnding content }

/-- The effect of a successful `fs::write(path, bytes)` as observed
through the same raw path string: subsequent reads of that string see the
new bytes and a regular file of that length; every other key is
unchanged. -/
def FS.afterWrite (st : FS) (p : String) (bytes : List Nat) : FS :=
  { st with
    readBytes := fun q => if q = p then some bytes else st.readBytes q,
    metaRaw := fun q => if q = p then some (.file, bytes.length)
                        else st.metaRaw q }

/-- `save_file` (lib.rs 186–189): writes `content.as_bytes()` directly via
`fs::write` — there is **no** allowlist or validation call in its body, so
it takes no allowlist argument.  Returns the written state on success. -/
def saveFile (st : FS) (path : String) (content : List Nat) :
    Except Err FS :=
  if st.writeOk path then .ok (st.afterWrite path (utf8Encode content))
  else .error .saveFailed

/-- `save_file_as` (lib.rs 191–197): `validate_write_path`, then the same
`fs::write`. -/
def saveFileAs (allowed : List CPath) (st : FS) (path : String)
    (content : List Nat) : Except Err FS :=
  match validateWritePath allowed st path with
  | .error e => .error e
  | .ok _ =>
      if st.writeOk path then .ok (st.afterWrite path (utf8Encode content))
      else .error .saveFailed

/-- The `FileEntry` struct (lib.rs 110–116). -/
structure FileEntry where
  name : String
  path : String
  is_dir : Bool
  children : Option (List FileEntry)

/-- The skip test at lib.rs 223: hidden entries (`starts_with('.')`,
i.e. the first character is a dot) and the two conventionally-ignored
directory names. -/
def skipName (name : String) : Bool :=
  name.data.head? == some '.' || name == "node_modules" || name == "target"

/-- Character-wise lowercasing (Rust's `to_lowercase` on the names the
comparator sees; only the relative order of entries depends on it, which
no claim inspects). -/
def lowerStr (s : String) : String :=
  String.mk (s.data.map Char.toLower)

/-- The comparator of lib.rs 208–217: directories first
(`b_is_dir.cmp(&a_is_dir)`), then case-insensitive name order. -/
def entLe (a b : DirEnt) : Bool :=
  ((compare b.isDirE a.isDirE).then
    (compare (lowerStr a.name) (lowerStr b.name))) ≠ .gt

/-- Insert into a list sorted by `entLe` (helper realizing `sort_by`). -/
def insertEnt (a : DirEnt) : List DirEnt → List DirEnt
  | [] => [a]
  | b :: l => if entLe a b then a :: b :: l else b :: insertEnt a l

/-- `items.sort_by(...)` at lib.rs 208: a sort by `entLe` (insertion
sort; the theorems below depend only on which entries appear, which any
reordering preserves). -/
def sortEntries (l : List DirEnt) : List DirEnt :=
  l.foldr insertEnt []

/-- `build_file_tree` (lib.rs 199–246): stop when `depth > max_depth`,
read the directory (an unreadable one contributes no entries), sort,
skip hidden/ignored names, and recurse into subdirectories with
`depth + 1`. -/
def buildFileTree (st : FS) (dir : String) (depth maxDepth : Nat) :
    List FileEntry :=
  if _h : depth > maxDepth then []
  else
    match st.readDir dir with
    | none => []
    | some items =>
        ((sortEntries items).filter (fun it => !skipName it.name)).map
          (fun it =>
            { name := it.name,
              path := it.entPath,
              is_dir := it.isDirE,
              children :=
                if it.isDirE then
                  some (buildFileTree st it.entPath (depth + 1) maxDepth)
                else none })
termination_by maxDepth + 1 - depth
decreasing_by omega

/-- Fuel-indexed form of `buildFileTree`: `fuel` is the number of
directory levels still allowed to be read
(`maxDepth + 1 - depth`).  Structural in `fuel`, which makes induction
and concrete evaluation direct; `buildFileTree_eq_fuel` relates it to
the source-shaped definition. -/
def buildTreeFuel (st : FS) (fuel : Nat) (dir : String) : List FileEntry :=
  match fuel with
  | 0 => []
  | f + 1 =>
      match st.readDir dir with
      | none => []
      | some items =>
          ((sortEntries items).filter (fun it => !skipName it.name)).map
            (fun it =>
              { name := it.name,
                path := it.entPath,
                is_dir := it.isDirE,
                children :=
                  if it.isDirE then some (buildTreeFuel st f it.entPath)
                  else none })

/-- `list_directory` (lib.rs 248–255): validate, then build the tree from
the **raw** path string with `depth = 0`, `max_depth = 10`. -/
def listDirectory (allowed : List CPath) (st : FS) (path : String) :
    Except Err (List FileEntry) :=
  match validateReadDir allowed st path with
  | .error e => .error e
  | .ok _ => .ok (buildFileTree st path 0 10)

mutual

/-- Number of levels occupied by an entry and its descendants: an entry
is 1 level, plus the levels of its child forest. -/
def entryDepth : FileEntry → Nat
  | ⟨_, _, _, none⟩ => 1
  | ⟨_, _, _, some cs⟩ => 1 + forestDepth cs

/-- Greatest node level in a forest (0 for an empty forest; a node at
level k below the listed root contributes k). -/
def forestDepth : List FileEntry → Nat
  | [] => 0
  | e :: es => max (entryDepth e) (forestDepth es)

end

mutual

/-- Every name in the entry and its descendants passes the skip test. -/
def entryClean : FileEntry → Bool
  | ⟨n, _, _, none⟩ => !skipName n
  | ⟨n, _, _, some cs⟩ => !skipName n && forestClean cs

/-- Every name anywhere in the forest passes the skip test. -/
def forestClean : List FileEntry → Bool
  | [] => true
  | e :: es => entryClean e && forestClean es

end

/-- Whether an `Except` result is a success (the spec's "is_allowed
returns true" for the allowlist query). -/
def isOkE {ε α : Type} (e : Except ε α) : Bool :=
  match e with
  | .ok _ => true
  | .error _ => false

/-- Render a canonical component list back to an absolute path string
(used only to express "the operation performed on the canonical path"
in the spec-side model below). -/
def renderPath (c : CPath) : String :=
  c.foldl (fun acc comp => acc ++ "/" ++ comp) ""

/-- Modelled from the spec (§4.3/§4.4, the behaviour the claim asserts
but the code does not implement): validation "returns the validated
canonical path for use by the File Operation Layer", and the read is
then performed **on that canonical path** rather than on the raw request
string.  Identical to `readFile` except that the filesystem accesses
after validation use `renderPath canonical`. -/
def readFileOnCanonical (allowed : List CPath) (st : FS) (path : String) :
    Except Err FileContent :=
  match isPathAllowed allowed st path with
  | .error e => .error e
  | .ok canonical =>
      match st.meta canonical with
      | none => .error .metadataError
      | some (ft, _) =>
          if ft = .file then
            match st.readBytes (renderPath canonical) with
            | none => .error .readFailed
            | some bytes =>
                match st.metaRaw (renderPath canonical) with
                | none => .error .fileMetadataFailed
                | some (_, size) =>
                    let encoding := detectEncoding bytes
                    let content := rsDecode encoding bytes
                    .ok { content := content,
                          encoding := encoding.name,
                          path := renderPath canonical,
                          file_name := pathFileName (renderPath canonical),
                          size := size,
                          line_ending := detectLineEnding content }
          else .error .notAFile

/-- The empty filesystem environment: every syscall fails or answers
trivially.  Concrete states below override individual fields. -/
def fsNone : FS :=
  { canon := fun _ => none,
    meta := fun _ => none,
    metaRaw := fun _ => none,
    readBytes := fun _ => none,
    readDir := fun _ => none,
    parentOf := fun _ => none,
    pExists := fun _ => false,
    pIsDir := fun _ => false,
    writeOk := fun _ => false }

/-- A state in which `/secret/x` is writable but nothing has ever been
approved (its canonical form is not even resolvable). -/
def stC1 : FS := { fsNone with writeOk := fun s => s == "/secret/x" }

/-- A state in which `/etc/passwd` resolves but nothing is approved. -/
def stC2w : FS :=
  { fsNone with
    canon := fun s =>
      if s = "/etc/passwd" then some ["etc", "passwd"] else none }

/-- A state resolving the approval `/a/b`, its sibling `/a/bb` (which
shares only a string prefix), and its descendant `/a/b/x`. -/
def stC3 : FS :=
  { fsNone with
    canon := fun s =>
      if s = "/a/b" then some ["a", "b"]
      else if s = "/a/bb" then some ["a", "bb"]
      else if s = "/a/b/x" then some ["a", "b", "x"]
      else none }

/-- A state in which the raw request string `lnk` canonicalizes to
`/real` (a symlink), and the object reachable via the raw string holds
different bytes than the object at the canonical path — the situation
the spec's canonicalize-then-operate design is meant to rule out. -/
def stC4 : FS :=
  { fsNone with
    canon := fun s => if s = "lnk" then some ["real"] else none,
    meta := fun c => if c = ["real"] then some (.file, 2) else none,
    readBytes := fun s =>
      if s = "lnk" then some [65, 65]
      else if s = "/real" then some [66, 66]
      else none,
    metaRaw := fun s =>
      if s = "lnk" then some (.file, 2)
      else if s = "/real" then some (.file, 2)
      else none }

/-- A state with an approved directory `/w` holding the file
`/w/f.txt`, for exercising the validated read and list paths. -/
def stC4w : FS :=
  { fsNone with
    canon := fun s =>
      if s = "/w/f.txt" then some ["w", "f.txt"]
      else if s = "/w" then some ["w"]
      else none,
    meta := fun c =>
      if c = ["w", "f.txt"] then some (.file, 2)
      else if c = ["w"] then some (.dir, 0)
      else none,
    readBytes := fun s => if s = "/w/f.txt" then some [104, 105] else none,
    metaRaw := fun s => if s = "/w/f.txt" then some (.file, 2) else none }

/-- A state with an approved home directory `/home` containing the
writable file `/home/f.txt` — the round-trip scenario. -/
def stC7 : FS :=
  { fsNone with
    canon := fun s =>
      if s = "/home" then some ["home"]
      else if s = "/home/f.txt" then some ["home", "f.txt"]
      else none,
    meta := fun c =>
      if c = ["home"] then some (.dir, 0)
      else if c = ["home", "f.txt"] then some (.file, 0)
      else none,
    parentOf := fun s => if s = "/home/f.txt" then some "/home" else none,
    pExists := fun s => s == "/home",
    pIsDir := fun s => s == "/home",
    writeOk := fun s => s == "/home/f.txt" }

/-- A state whose approved path `/proj` resolves to a directory. -/
def stC9 : FS :=
  { fsNone with
    canon := fun s => if s = "/proj" then some ["proj"] else none,
    meta := fun c => if c = ["proj"] then some (.dir, 0) else none }

/-- A state with an approved, validated directory `/dir` whose contents
(and everything else) are unreadable. -/
def stC10 : FS :=
  { fsNone with
    canon := fun s => if s = "/dir" then some ["dir"] else none,
    meta := fun c => if c = ["dir"] then some (.dir, 0) else none }

/-- A chain of directories `/d0 → /d1 → … → /d11`, each the only entry
of its parent: the listing of `/d0` then contains a node eleven levels
below the root. -/
def chainFS : FS :=
  { fsNone with
    canon := fun s => if s = "/d0" then some ["d0"] else none,
    meta := fun c => if c = ["d0"] then some (.dir, 0) else none,
    readDir := fun s =>
      if s = "/d0" then some [⟨"a", "/d1", true⟩]
      else if s = "/d1" then some [⟨"a", "/d2", true⟩]
      else if s = "/d2" then some [⟨"a", "/d3", true⟩]
      else if s = "/d3" then some [⟨"a", "/d4", true⟩]
      else if s = "/d4" then some [⟨"a", "/d5", true⟩]
      else if s = "/d5" then some [⟨"a", "/d6", true⟩]
      else if s = "/d6" then some [⟨"a", "/d7", true⟩]
      else if s = "/d7" then some [⟨"a", "/d8", true⟩]
      else if s = "/d8" then some [⟨"a", "/d9", true⟩]
      else if s = "/d9" then some [⟨"a", "/d10", true⟩]
      else if s = "/d10" then some [⟨"a", "/d11", true⟩]
      else none }

/-- The tree `list_directory` produces for `chainFS` at `/d0`: a single
chain whose deepest node (`/d11`) sits eleven levels below the root. -/
def chainT : List FileEntry :=
  [⟨"a", "/d1", true, some
    [⟨"a", "/d2", true, some
      [⟨"a", "/d3", true, some
        [⟨"a", "/d4", true, some
          [⟨"a", "/d5", true, some
            [⟨"a", "/d6", true, some
              [⟨"a", "/d7", true, some
                [⟨"a", "/d8", true, some
                  [⟨"a", "/d9", true, some
                    [⟨"a", "/d10", true, some
                      [⟨"a", "/d11", true, some []⟩]⟩]⟩]⟩]⟩]⟩]⟩]⟩]⟩]⟩]⟩]

/-- `buildFileTree` at `(depth, maxDepth)` is `buildTreeFuel` with
`maxDepth + 1 - depth` levels of fuel. -/
theorem buildFileTree_eq_fuel (st : FS) (maxDepth : Nat) :
    ∀ (fuel depth : Nat) (dir : String), fuel = maxDepth + 1 - depth →
      buildFileTree st dir depth maxDepth = buildTreeFuel st fuel dir := by
  intro fuel
  induction fuel with
  | zero =>
      intro depth dir h
      have hd : depth > maxDepth := by omega
      unfold buildFileTree
      simp [hd, buildTreeFuel]
  | succ f ih =>
      intro depth dir h
      have hd : ¬ depth > maxDepth := by omega
      have hrec : ∀ d, buildFileTree st d (depth + 1) maxDepth =
          buildTreeFuel st f d := fun d => ih (depth + 1) d (by omega)
      unfold buildFileTree
      rw [dif_neg hd]
      cases hrd : st.readDir dir with
      | none => simp [buildTreeFuel, hrd]
      | some items => simp [buildTreeFuel, hrd, hrec]

/-- Bounding a mapped forest's depth entrywise. -/
theorem forestDepth_map_le {g : DirEnt → FileEntry} {n : Nat} :
    ∀ {l : List DirEnt}, (∀ a ∈ l, entryDepth (g a) ≤ n) →
      forestDepth (l.map g) ≤ n := by
  intro l
  induction l with
  | nil => intro _; simp [forestDepth]
  | cons a l ihl =>
      intro h
      simp only [List.map_cons, forestDepth]
      exact max_le (h a (by simp)) (ihl fun b hb => h b (by simp [hb]))

/-- The fuel-indexed tree never has a node deeper than the fuel. -/
theorem forestDepth_buildTreeFuel (st : FS) :
    ∀ (fuel : Nat) (dir : String),
      forestDepth (buildTreeFuel st fuel dir) ≤ fuel := by
  intro fuel
  induction fuel with
  | zero => intro dir; simp [buildTreeFuel, forestDepth]
  | succ f ih =>
      intro dir
      unfold buildTreeFuel
      cases hrd : st.readDir dir with
      | none => simp [forestDepth]
      | some items =>
          simp only
          apply forestDepth_map_le
          intro a _
          cases hdir : a.isDirE with
          | false =>
              simp only [hdir, Bool.false_eq_true, if_false]
              simp [entryDepth]
          | true =>
              simp only [hdir, if_true]
              have hstep : ∀ (nm pth : String) (cs : List FileEntry),
                  entryDepth ⟨nm, pth, true, some cs⟩ = 1 + forestDepth cs :=
                fun nm pth cs => by simp [entryDepth]
              rw [hstep]
              have := ih a.entPath
              omega

/-- A mapped forest is clean when every produced entry is clean. -/
theorem forestClean_map {g : DirEnt → FileEntry} :
    ∀ {l : List DirEnt}, (∀ a ∈ l, entryClean (g a) = true) →
      forestClean (l.map g) = true := by
  intro l
  induction l with
  | nil => intro _; simp [forestClean]
  | cons a l ihl =>
      intro h
      simp only [List.map_cons, forestClean, Bool.and_eq_true]
      exact ⟨h a (by simp), ihl fun b hb => h b (by simp [hb])⟩

/-- Membership in `insertEnt` is membership in the original list plus the
inserted element. -/
theorem mem_insertEnt {a b : DirEnt} :
    ∀ {l : List DirEnt}, b ∈ insertEnt a l → b = a ∨ b ∈ l := by
  intro l
  induction l with
  | nil => intro h; simp [insertEnt] at h; exact Or.inl h
  | cons c l ihl =>
      intro h
      simp only [insertEnt] at h
      by_cases hle : entLe a c
      · simp [hle] at h
        rcases h with h | h | h
        · exact Or.inl h
        · exact Or.inr (by simp [h])
        · exact Or.inr (by simp [h])
      · simp [hle] at h
        rcases h with h | h
        · exact Or.inr (by simp [h])
        · rcases ihl h with h' | h'
          · exact Or.inl h'
          · exact Or.inr (by simp [h'])

/-- Sorting introduces no new entries. -/
theorem mem_sortEntries {b : DirEnt} :
    ∀ {l : List DirEnt}, b ∈ sortEntries l → b ∈ l := by
  intro l
  induction l with
  | nil => intro h; simp [sortEntries] at h
  | cons a l ihl =>
      intro h
      simp only [sortEntries, List.foldr_cons] at h
      rcases mem_insertEnt h with h' | h'
      · simp [h']
      · exact List.mem_cons_of_mem _ (ihl h')

/-- Every name in the fuel-indexed tree passes the skip test. -/
theorem forestClean_buildTreeFuel (st : FS) :
    ∀ (fuel : Nat) (dir : String),
      forestClean (buildTreeFuel st fuel dir) = true := by
  intro fuel
  induction fuel with
  | zero => intro dir; simp [buildTreeFuel, forestClean]
  | succ f ih =>
      intro dir
      unfold buildTreeFuel
      cases hrd : st.readDir dir with
      | none => simp [forestClean]
      | some items =>
          simp only
          apply forestClean_map
          intro a ha
          have hskip : skipName a.name = false := by
            have := (List.mem_filter.mp ha).2
            simpa using this
          cases hdir : a.isDirE with
          | false =>
              simp only [hdir, Bool.false_eq_true, if_false]
              simp [entryClean, hskip]
          | true =>
              simp only [hdir, if_true]
              have hstep : ∀ (nm pth : String) (cs : List FileEntry),
                  entryClean ⟨nm, pth, true, some cs⟩ =
                    (!skipName nm && forestClean cs) :=
                fun nm pth cs => by simp [entryClean]
              rw [hstep]
              simp [hskip, ih a.entPath]

theorem utf8Encode_cons (c : Nat) (t : List Nat) :
    utf8Encode (c :: t) = utf8EncodeChar c ++ utf8Encode t := by
  simp [utf8Encode]

/-- Fuel-generalized inversion: decoding inverts encoding on any text of
Unicode scalar values once the fuel covers the byte count. -/
theorem utf8DecodeAux_utf8Encode :
    ∀ (t : List Nat) (fuel : Nat), (∀ c ∈ t, c < 0x110000) →
      (utf8Encode t).length ≤ fuel →
      utf8DecodeAux fuel (utf8Encode t) = t := by
  intro t
  induction t with
  | nil =>
      intro fuel _ _
      cases fuel with
      | zero => simp [utf8Encode, utf8DecodeAux]
      | succ f => simp [utf8Encode, utf8DecodeAux]
  | cons c t ih =>
      intro fuel h hlen
      have hc : c < 0x110000 := h c (by simp)
      have h' : ∀ b ∈ t, b < 0x110000 := fun b hb => h b (by simp [hb])
      rw [utf8Encode_cons] at hlen ⊢
      by_cases h1 : c < 0x80
      · simp only [utf8EncodeChar, if_pos h1, List.cons_append,
          List.nil_append, List.length_cons] at hlen ⊢
        cases fuel with
        | zero => omega
        | succ f =>
            simp only [utf8DecodeAux, if_pos h1]
            rw [ih f h' (by omega)]
      · by_cases h2 : c < 0x800
        · simp only [utf8EncodeChar, if_neg h1, if_pos h2,
            List.cons_append, List.nil_append, List.length_cons]
            at hlen ⊢
          cases fuel with
          | zero => omega
          | succ f =>
              have hb0 : ¬ 0xC0 + c / 0x40 < 0x80 := by omega
              have hb1 : 0xC0 + c / 0x40 < 0xE0 := by omega
              simp only [utf8DecodeAux, hb0, hb1, if_true, if_false]
              rw [ih f h' (by omega)]
              simp only [List.cons.injEq, and_true]
              omega
        · by_cases h3 : c < 0x10000
          · simp only [utf8EncodeChar, if_neg h1, if_neg h2, if_pos h3,
              List.cons_append, List.nil_append, List.length_cons]
              at hlen ⊢
            cases fuel with
            | zero => omega
            | succ f =>
                have hb0 : ¬ 0xE0 + c / 0x1000 < 0x80 := by omega
                have hb1 : ¬ 0xE0 + c / 0x1000 < 0xE0 := by omega
                have hb2 : 0xE0 + c / 0x1000 < 0xF0 := by omega
                simp only [utf8DecodeAux, hb0, hb1, hb2, if_true, if_false,
                  ite_false, ite_true]
                rw [ih f h' (by omega)]
                simp only [List.cons.injEq, and_true]
                omega
          · simp only [utf8EncodeChar, if_neg h1, if_neg h2, if_neg h3,
              List.cons_append, List.nil_append, List.length_cons]
              at hlen ⊢
            cases fuel with
            | zero => omega
            | succ f =>
                have hb0 : ¬ 0xF0 + c / 0x40000 < 0x80 := by omega
                have hb1 : ¬ 0xF0 + c / 0x40000 < 0xE0 := by omega
                have hb2 : ¬ 0xF0 + c / 0x40000 < 0xF0 := by omega
                simp only [utf8DecodeAux, hb0, hb1, hb2, if_true, if_false,
                  ite_false, ite_true]
                rw [ih f h' (by omega)]
                simp only [List.cons.injEq, and_true]
                omega

/-- Decoding inverts encoding on any text of Unicode scalar values. -/
theorem utf8Decode_utf8Encode (t : List Nat)
    (h : ∀ c ∈ t, c < 0x110000) : utf8Decode (utf8Encode t) = t :=
  utf8DecodeAux_utf8Encode t (utf8Encode t).length h (Nat.le_refl _)

/-- The encoding of a valid text passes this model's UTF-8 validity
check, so statistical detection guesses UTF-8 on it. -/
theorem statGuess_utf8Encode (t : List Nat)
    (h : ∀ c ∈ t, c < 0x110000) :
    statGuess (utf8Encode t) = .utf8 := by
  simp [statGuess, utf8Valid, utf8Decode_utf8Encode t h]

/-- The encoding of a text whose first scalar is not U+FEFF does not
begin with the UTF-8 byte-order mark. -/
theorem hasUtf8Bom_utf8Encode (t : List Nat)
    (h : ∀ c ∈ t, c < 0x110000) (hbom : t.head? ≠ some 0xFEFF) :
    hasUtf8Bom (utf8Encode t) = false := by
  cases t with
  | nil => simp [utf8Encode, hasUtf8Bom]
  | cons c t =>
      have hc : c < 0x110000 := h c (by simp)
      have hne : c ≠ 0xFEFF := by
        intro hcontra
        exact hbom (by simp [hcontra])
      rw [utf8Encode_cons]
      rw [show (hasUtf8Bom = fun bytes => decide (3 ≤ bytes.length ∧
        bytes.getD 0 0 = 0xEF ∧ bytes.getD 1 0 = 0xBB ∧
        bytes.getD 2 0 = 0xBF)) from rfl]
      by_cases h1 : c < 0x80
      · simp only [utf8EncodeChar, if_pos h1, List.cons_append,
          List.nil_append, decide_eq_false_iff_not]
        intro hx
        have := hx.2.1
        simp at this
        omega
      · by_cases h2 : c < 0x800
        · simp only [utf8EncodeChar, if_neg h1, if_pos h2,
            List.cons_append, List.nil_append, decide_eq_false_iff_not]
          intro hx
          have := hx.2.1
          simp at this
          omega
        · by_cases h3 : c < 0x10000
          · simp only [utf8EncodeChar, if_neg h1, if_neg h2, if_pos h3,
              List.cons_append, List.nil_append, decide_eq_false_iff_not]
            intro hx
            obtain ⟨-, e0, e1, e2⟩ := hx
            simp at e0 e1 e2
            omega
          · simp only [utf8EncodeChar, if_neg h1, if_neg h2, if_neg h3,
              List.cons_append, List.nil_append, decide_eq_false_iff_not]
            intro hx
            have := hx.2.1
            simp at this
            omega

/-- The first byte of the encoding of a valid text is at most 0xF4, so
the UTF-16 byte-order-mark tests cannot fire. -/
theorem utf8Encode_getD_le (t : List Nat)
    (h : ∀ c ∈ t, c < 0x110000) :
    (utf8Encode t).getD 0 0 ≤ 0xF4 := by
  cases t with
  | nil => simp [utf8Encode]
  | cons c t =>
      have hc : c < 0x110000 := h c (by simp)
      rw [utf8Encode_cons]
      by_cases h1 : c < 0x80
      · simp [utf8EncodeChar, h1]; omega
      · by_cases h2 : c < 0x800
        · simp [utf8EncodeChar, h1, h2]; omega
        · by_cases h3 : c < 0x10000
          · simp [utf8EncodeChar, h1, h2, h3]; omega
          · simp [utf8EncodeChar, h1, h2, h3]; omega

/-- On the encoding of a valid text not starting with U+FEFF, the full
detect-then-decode pipeline of `read_file` reports UTF-8 and returns the
text unchanged. -/
theorem decodeBytes_utf8Encode (t : List Nat)
    (h : ∀ c ∈ t, c < 0x110000) (hbom : t.head? ≠ some 0xFEFF) :
    detectEncoding (utf8Encode t) = .utf8 ∧
      decodeBytes (utf8Encode t) = t := by
  have hnb := hasUtf8Bom_utf8Encode t h hbom
  have hle := utf8Encode_getD_le t h
  have hdet : detectEncoding (utf8Encode t) = .utf8 := by
    rw [detectEncoding, if_neg (by simp [hnb])]
    rw [if_neg (by intro hx; omega)]
    rw [if_neg (by intro hx; omega)]
    exact statGuess_utf8Encode t h
  refine ⟨hdet, ?_⟩
  rw [decodeBytes, hdet]
  simp only [rsDecode, hnb, Bool.false_eq_true, if_false]
  exact utf8Decode_utf8Encode t h

/-- C1.  The claim says every exposed write is mediated by the
allowlist, so `save_file` on an unapproved path must fail with
`AccessDenied` and not write.  The code's `save_file` performs no
validation at all: in a state where nothing is approved (the path does
not even canonicalize), it succeeds and the file's bytes change.  This
contradicts the code's own allowlist doc comment ("Only these paths
(and their contents) are accessible"). -/
theorem c1_save_file_bypasses_allowlist :
    saveFile stC1 "/secret/x" [104, 105] =
      .ok (stC1.afterWrite "/secret/x" [104, 105]) ∧
    (stC1.afterWrite "/secret/x" [104, 105]).readBytes "/secret/x" =
      some [104, 105] ∧
    isOkE (isPathAllowed [] stC1 "/secret/x") = false :=
  ⟨rfl, rfl, rfl⟩

/-- C2, counterexample.  The claim says a path outside the allowlist
always yields `AccessDenied`, existing or not; but a path that cannot be
canonicalized (nonexistent) fails earlier, with the resolution error,
which is distinct from every `AccessDenied` value. -/
theorem c2_counterexample_nonexistent_path :
    readFile [] fsNone "/nope" = .error .pathResolution ∧
    Err.pathResolution ≠ Err.accessDenied "/nope" :=
  ⟨rfl, fun h => Err.noConfusion h⟩

/-- C2, amended.  `read` on a path whose canonical form is not covered
by any approved path fails with `AccessDenied`; the "regardless of
existence" part holds only for paths that canonicalize (a nonexistent
path fails with the resolution error instead, as the counterexample
shows). -/
theorem c2_amended_read_uncovered_accessDenied (allowed : List CPath)
    (st : FS) (p : String) (c : CPath)
    (h1 : st.canon p = some c)
    (h2 : (allowed.any fun a => a.isPrefixOf c) = false) :
    readFile allowed st p = .error (.accessDenied p) := by
  simp [readFile, validateFilePath, isPathAllowed, h1, h2]

/-- C2 witness: the concrete resolvable-but-unapproved read. -/
theorem c2_amended_witness :
    readFile [] stC2w "/etc/passwd" = .error (.accessDenied "/etc/passwd") :=
  c2_amended_read_uncovered_accessDenied [] stC2w "/etc/passwd"
    ["etc", "passwd"] rfl rfl

/-- C5.  After `clear_approved_paths`, no path whatsoever is allowed by
`is_path_allowed` (it fails with resolution error or `AccessDenied`),
whatever was approved before. -/
theorem c5_clear_then_nothing_allowed (allowed : List CPath) (st : FS)
    (p : String) :
    isOkE (isPathAllowed (clearApprovedPaths allowed) st p) = false := by
  unfold clearApprovedPaths isPathAllowed
  cases h : st.canon p with
  | none => rfl
  | some c => simp [isOkE]

/-- C8.  Any byte stream beginning EF BB BF is detected as UTF-8,
whatever the remaining bytes: the byte-order-mark branch precedes the
statistical detector. -/
theorem c8_bom_detected_utf8 (rest : List Nat) :
    detectEncoding (0xEF :: 0xBB :: 0xBF :: rest) = .utf8 := by
  have hb : hasUtf8Bom (0xEF :: 0xBB :: 0xBF :: rest) = true := by
    simp [hasUtf8Bom]
  simp [detectEncoding, hb]

/-- C9.  `read_file` on a path whose (covered) canonical form resolves
to a directory fails with the not-a-regular-file error and returns no
content. -/
theorem c9_read_approved_directory_notAFile (allowed : List CPath)
    (st : FS) (p : String) (c : CPath) (sz : Nat)
    (h1 : st.canon p = some c)
    (h2 : (allowed.any fun a => a.isPrefixOf c) = true)
    (h3 : st.meta c = some (.dir, sz)) :
    readFile allowed st p = .error .notAFile := by
  simp [readFile, validateFilePath, isPathAllowed, h1, h2, h3]

/-- C9 witness: reading the approved directory `/proj`. -/
theorem c9_witness :
    readFile [["proj"]] stC9 "/proj" = .error .notAFile :=
  c9_read_approved_directory_notAFile [["proj"]] stC9 "/proj" ["proj"] 0
    rfl (by decide) rfl

/-- C10.  Once `validate_read_dir` has passed, `list_directory` always
returns a success (the built forest), and a directory whose contents
cannot be read contributes an empty entry list instead of an error. -/
theorem c10_list_total_after_validation (al : List CPath) (st : FS)
    (p d : String) (depth maxD : Nat)
    (h1 : validateReadDir al st p = .ok ())
    (h2 : st.readDir d = none) :
    listDirectory al st p = .ok (buildFileTree st p 0 10) ∧
    buildFileTree st d depth maxD = [] := by
  constructor
  · unfold listDirectory
    rw [h1]
  · rw [buildFileTree_eq_fuel st maxD (maxD + 1 - depth) depth d rfl]
    cases hf : maxD + 1 - depth with
    | zero => simp [buildTreeFuel]
    | succ f => simp [buildTreeFuel, h2]

/-- C10 witness: listing the approved directory `/dir`, all of whose
reads fail. -/
theorem c10_witness :
    listDirectory [["dir"]] stC10 "/dir" =
      .ok (buildFileTree stC10 "/dir" 0 10) ∧
    buildFileTree stC10 "/x" 3 10 = [] :=
  c10_list_total_after_validation [["dir"]] stC10 "/dir" "/x" 3 10 rfl rfl

/-- C3.  With exactly the approval obtained from `approve_path` on a
path canonicalizing to P, `is_path_allowed` succeeds on a query exactly
when the query's canonical form has P as a list-of-components prefix —
i.e. equals P or lies below it at a path-segment boundary.  A sibling
sharing only a string prefix (`/a/bb` vs `/a/b`) is not a component
prefix, so it is rejected (see the witness). -/
theorem c3_allowed_iff_segment_ancestor (st : FS) (praw q : String)
    (P c : CPath) (al : List CPath)
    (h1 : st.canon praw = some P)
    (h2 : approvePath [] st praw = .ok al)
    (h3 : st.canon q = some c) :
    isOkE (isPathAllowed al st q) = true ↔ P <+: c := by
  have hal : al = [P] := by
    unfold approvePath at h2
    rw [h1] at h2
    injection h2 with h
    exact h.symm
  subst hal
  unfold isPathAllowed
  rw [h3]
  simp only [List.any_cons, List.any_nil, Bool.or_false,
    List.isPrefixOf_iff_prefix]
  by_cases hp : P <+: c
  · simp [hp, isOkE]
  · simp [hp, isOkE]

/-- C3 witness: approving `/a/b` accepts the descendant `/a/b/x` and
rejects the mere string-prefix sibling `/a/bb`. -/
theorem c3_witness :
    isOkE (isPathAllowed [["a", "b"]] stC3 "/a/bb") = false ∧
    isOkE (isPathAllowed [["a", "b"]] stC3 "/a/b/x") = true := by
  have happ : approvePath [] stC3 "/a/b" = .ok [["a", "b"]] := rfl
  constructor
  · have hiff := c3_allowed_iff_segment_ancestor stC3 "/a/b" "/a/bb"
      ["a", "b"] ["a", "bb"] [["a", "b"]] rfl happ rfl
    rcases Bool.eq_false_or_eq_true
        (isOkE (isPathAllowed [["a", "b"]] stC3 "/a/bb")) with h | h
    · exact absurd (hiff.mp h) (by decide)
    · exact h
  · exact (c3_allowed_iff_segment_ancestor stC3 "/a/b" "/a/b/x"
      ["a", "b"] ["a", "b", "x"] [["a", "b"]] rfl happ rfl).mpr (by decide)

/-- C6, counterexample.  Listing the chain `/d0 → … → /d11` returns a
tree whose deepest node sits **eleven** levels below the root (the
recursion guard `depth > max_depth` lets calls run at depths 0..10, and
the call at depth 10 still emits entries), so "no node deeper than 10
levels below the root" is false. -/
theorem c6_counterexample_depth_eleven :
    listDirectory [["d0"]] chainFS "/d0" = .ok chainT ∧
    forestDepth chainT = 11 := by
  have htree : buildFileTree chainFS "/d0" 0 10 = chainT := by
    rw [buildFileTree_eq_fuel chainFS 10 11 0 "/d0" rfl]
    rfl
  constructor
  · unfold listDirectory
    rw [show validateReadDir [["d0"]] chainFS "/d0" = .ok () from rfl,
      htree]
  · simp [chainT, forestDepth, entryDepth]

/-- C6, amended.  For every state and directory, the forest returned by
`list_directory`'s traversal has no node deeper than **eleven** levels
below the root (directories are read only at recursion depths 0..10, so
the deepest entries sit eleven levels down, with empty child lists), and
no entry anywhere in it has a name starting with '.' or equal to
`node_modules` or `target`. -/
theorem c6_amended_depth_and_filter (st : FS) (dir : String) :
    forestDepth (buildFileTree st dir 0 10) ≤ 11 ∧
    forestClean (buildFileTree st dir 0 10) = true := by
  rw [buildFileTree_eq_fuel st 10 11 0 dir rfl]
  exact ⟨forestDepth_buildTreeFuel st 11 dir,
    forestClean_buildTreeFuel st 11 dir⟩

/-- C7, counterexample.  Writing the text U+FEFF 'a' to the approved
writable file `/home/f.txt` and reading it back yields only ['a']: the
write emits the UTF-8 bytes EF BB BF 61, and the read's decode strips
the leading byte-order mark, so the content read back is not the text
that was written. -/
theorem c7_counterexample_bom_stripped :
    saveFileAs [["home"]] stC7 "/home/f.txt" [0xFEFF, 0x61] =
      .ok (stC7.afterWrite "/home/f.txt" (utf8Encode [0xFEFF, 0x61])) ∧
    readFile [["home"]]
        (stC7.afterWrite "/home/f.txt" (utf8Encode [0xFEFF, 0x61]))
        "/home/f.txt" =
      .ok { content := [0x61], encoding := "UTF-8",
            path := "/home/f.txt", file_name := "f.txt", size := 4,
            line_ending := "LF" } ∧
    ([0x61] : List Nat) ≠ [0xFEFF, 0x61] :=
  ⟨rfl, rfl, by decide⟩

/-- C7, amended.  Writing a text T (valid Unicode scalars) to an
approved writable path — whether the file already existed or is created
by the write — and reading it back yields content equal to T
**provided T does not begin with U+FEFF** (a leading U+FEFF is stripped
by byte-order-mark handling, as the counterexample shows), and the
reported line-ending is determined by T's terminators: CRLF if T
contains any "\r\n", else CR if it contains any bare "\r", else LF.
The hypotheses describe the state in which the read runs, i.e. after
the successful write: the path then resolves to a canonical form that
is covered and is a regular file (true also for a file the write
created).  The encoding field of the result is stated as whatever
detection reports on the written bytes, not pinned to a name: the
statistical detector is an external collaborator. -/
theorem c7_amended_roundtrip (allowed : List CPath) (st0 st : FS)
    (p : String) (c : CPath) (msz : Nat) (t : List Nat)
    (hw : saveFileAs allowed st0 p t = .ok st)
    (h1 : st.canon p = some c)
    (h2 : (allowed.any fun a => a.isPrefixOf c) = true)
    (h3 : st.meta c = some (.file, msz))
    (hval : ∀ ch ∈ t, ch < 0x110000)
    (hbm : t.head? ≠ some 0xFEFF) :
    readFile allowed st p = .ok
      { content := t,
        encoding := (detectEncoding (utf8Encode t)).name,
        path := p,
        file_name := pathFileName p,
        size := (utf8Encode t).length,
        line_ending := if containsCRLF t then "CRLF"
          else if t.contains 13 then "CR" else "LF" } := by
  obtain ⟨hdet, hdecode⟩ := decodeBytes_utf8Encode t hval hbm
  have hst : st = st0.afterWrite p (utf8Encode t) := by
    unfold saveFileAs at hw
    cases hvw : validateWritePath allowed st0 p with
    | error e => rw [hvw] at hw; simp at hw
    | ok u =>
        rw [hvw] at hw
        cases hwo : st0.writeOk p with
        | false => rw [hwo] at hw; simp at hw
        | true =>
            rw [hwo] at hw
            simp at hw
            exact hw.symm
  subst hst
  have hrb : (st0.afterWrite p (utf8Encode t)).readBytes p =
      some (utf8Encode t) := by simp [FS.afterWrite]
  have hmr : (st0.afterWrite p (utf8Encode t)).metaRaw p =
      some (.file, (utf8Encode t).length) := by simp [FS.afterWrite]
  have hrs : rsDecode (detectEncoding (utf8Encode t)) (utf8Encode t) = t := by
    rw [show rsDecode (detectEncoding (utf8Encode t)) (utf8Encode t) =
      decodeBytes (utf8Encode t) from rfl]
    exact hdecode
  have hrs2 : rsDecode Enc.utf8 (utf8Encode t) = t := by
    rw [hdet] at hrs
    exact hrs
  simp only [readFile, validateFilePath, isPathAllowed,
    h1, h2, h3, hrb, hmr, if_true, hdet, hrs2]
  simp [Enc.name, detectLineEnding, hrs2]

/-- C7 witness: the concrete round trip of "hi\n" through `/home/f.txt`. -/
theorem c7_amended_witness :
    readFile [["home"]]
        (stC7.afterWrite "/home/f.txt" (utf8Encode [104, 105, 10]))
        "/home/f.txt" = .ok
      { content := [104, 105, 10],
        encoding := (detectEncoding (utf8Encode [104, 105, 10])).name,
        path := "/home/f.txt",
        file_name := pathFileName "/home/f.txt",
        size := (utf8Encode [104, 105, 10]).length,
        line_ending := if containsCRLF [104, 105, 10] then "CRLF"
          else if [104, 105, 10].contains 13 then "CR" else "LF" } :=
  c7_amended_roundtrip [["home"]] stC7
    (stC7.afterWrite "/home/f.txt" (utf8Encode [104, 105, 10]))
    "/home/f.txt" ["home", "f.txt"] 0 [104, 105, 10]
    rfl rfl (by decide) rfl (by decide) (by decide)


/-- C4, counterexample.  In a state where the raw request string `lnk`
canonicalizes to `/real` but the two paths answer reads with different
bytes, `read_file` returns the bytes read via the **raw** string, and
the spec-side model that reads the canonical path returned by validation
yields different content — so the claim that the File Operation Layer
operates on the returned canonical path is false of the code (whose
validation in fact returns unit and discards the canonical path). -/
theorem c4_counterexample_raw_not_canonical :
    readFile [["real"]] stC4 "lnk" =
      .ok { content := [65, 65], encoding := "UTF-8", path := "lnk",
            file_name := "lnk", size := 2, line_ending := "LF" } ∧
    readFileOnCanonical [["real"]] stC4 "lnk" =
      .ok { content := [66, 66], encoding := "UTF-8", path := "/real",
            file_name := "real", size := 2, line_ending := "LF" } ∧
    ([65, 65] : List Nat) ≠ [66, 66] :=
  ⟨rfl, rfl, by decide⟩

/-- C4, amended.  Validation returns only a success marker, and after it
passes, `read_file` and `list_directory` perform their filesystem
operations on the **raw** request string (canonicalization is used only
inside the checks); validation itself has no side effects on the
allowlist, which is threaded through unchanged. -/
theorem c4_amended_ops_on_raw_path (al : List CPath) (st : FS)
    (p q : String) (bytes : List Nat) (ft : FType) (sz : Nat)
    (h1 : validateFilePath al st p = .ok ())
    (h2 : st.readBytes p = some bytes)
    (h3 : st.metaRaw p = some (ft, sz))
    (h4 : validateReadDir al st q = .ok ()) :
    readFile al st p = .ok
      { content := decodeBytes bytes,
        encoding := (detectEncoding bytes).name,
        path := p,
        file_name := pathFileName p,
        size := sz,
        line_ending := detectLineEnding (decodeBytes bytes) } ∧
    listDirectory al st q = .ok (buildFileTree st q 0 10) := by
  constructor
  · unfold readFile
    rw [h1, h2, h3]
    simp [decodeBytes]
  · unfold listDirectory
    rw [h4]

/-- C4 witness: the validated file `/w/f.txt` and directory `/w`. -/
theorem c4_amended_witness :
    readFile [["w"]] stC4w "/w/f.txt" = .ok
      { content := decodeBytes [104, 105],
        encoding := (detectEncoding [104, 105]).name,
        path := "/w/f.txt",
        file_name := pathFileName "/w/f.txt",
        size := 2,
        line_ending := detectLineEnding (decodeBytes [104, 105]) } ∧
    listDirectory [["w"]] stC4w "/w" = .ok (buildFileTree stC4w "/w" 0 10) :=
  c4_amended_ops_on_raw_path [["w"]] stC4w "/w/f.txt" "/w" [104, 105]
    .file 2 rfl rfl rfl rfl
